import Mathlib

/-
Verification of the yoga attendance client-side state engine (src/app.js)
against its natural-language specification.

The embedding models the `Store` singleton of src/app.js: attendance is a
per-date, per-batch association of student ids to statuses, the lock set is
a list of "date|batch" key strings, the photo-proof map is keyed by the same
composite keys, and the computed view is memoized behind a validity flag.
JavaScript strings are modelled as `List Char`; JS `Map`s and plain objects
are both modelled as association lists with first-match lookup and
update-in-place-or-append insertion, which is exactly the observable
behaviour of `Map.get`/`Map.set` and of property access/assignment on
string-keyed objects (neither ever holds duplicate keys).
-/

namespace Yoga

/-- JavaScript strings, modelled as lists of characters. -/
abbrev Str := List Char

/-- The three attendance status values of CONFIG.STATUSES in src/config.js. -/
inductive Status where
  | present
  | absent
  | leave
deriving DecidableEq

/-- Status values as they occur in the merge view of src/app.js: the three
CONFIG statuses plus the missing-data marker `—` produced by `getVal` when a
whole cell group is absent. -/
inductive MStatus where
  | present
  | absent
  | leave
  | missing
deriving DecidableEq

/-- `Store.getFinalStatus(b1, b2)` from src/app.js lines 185-189: if either
argument is the string `present` the result is `present`; else if either is
`absent` the result is `absent`; else `leave`. The comparisons are string
comparisons, so the `—` marker simply fails both checks. -/
def getFinalStatus (b1 b2 : MStatus) : MStatus :=
  if b1 = MStatus.present ∨ b2 = MStatus.present then MStatus.present
  else if b1 = MStatus.absent ∨ b2 = MStatus.absent then MStatus.absent
  else MStatus.leave

/-- Modelled from the spec: normalization of the missing-data marker `—` to
`leave` before applying the precedence rule (spec section 4.5). -/
def normalizeDash (b : MStatus) : MStatus :=
  if b = MStatus.missing then MStatus.leave else b

/-- Modelled from the spec: the section 4.5 merge rule, stated the way the
spec words it — first normalize `—` to `leave` in each argument, then
`present` wins over `absent` wins over `leave`. Used only to compare with
the source-derived `getFinalStatus`. -/
def specMergeFinal (b1 b2 : MStatus) : MStatus :=
  let n1 := normalizeDash b1
  let n2 := normalizeDash b2
  if n1 = MStatus.present ∨ n2 = MStatus.present then MStatus.present
  else if n1 = MStatus.absent ∨ n2 = MStatus.absent then MStatus.absent
  else MStatus.leave

/-- A roster entry as loaded into `Store.studentMap` in src/app.js. -/
structure Student where
  id : Str
  name : Str
  appNumber : Str
  active : Bool
deriving DecidableEq

/-- First-match lookup in an association list: the behaviour of `Map.get`
and of string-keyed property access. -/
def lookupA {α : Type} (k : Str) : List (Str × α) → Option α
  | [] => none
  | (k', v) :: rest => if k = k' then some v else lookupA k rest

/-- Update-in-place-or-append insertion: the behaviour of `Map.set` and of
string-keyed property assignment (an existing key keeps its position, a new
key is appended in insertion order). -/
def insertA {α : Type} (k : Str) (v : α) : List (Str × α) → List (Str × α)
  | [] => [(k, v)]
  | (k', v') :: rest =>
      if k = k' then (k, v) :: rest else (k', v') :: insertA k v rest

/-- Key deletion, the behaviour of `delete obj[k]` (keys are unique, so
filtering every matching entry is the same operation). -/
def removeA {α : Type} (k : Str) (l : List (Str × α)) : List (Str × α) :=
  l.filter (fun kv => kv.1 ≠ k)

/-- Membership test in a list of keys: the behaviour of `Set.has`. -/
def memS (x : Str) : List Str → Bool
  | [] => false
  | k :: rest => x = k || memS x rest

/-- One cell group: the per-student statuses of a single (date, batch) pair.
`isMap` records whether the source currently holds it as a JS `Map` (built
in memory) or as a plain keyed object (restored from persistence); both
shapes expose the same lookup and update behaviour. -/
structure CellGroup where
  isMap : Bool
  entries : List (Str × Status)
deriving DecidableEq

/-- The computed view buckets produced by `Store.getComputed`. -/
structure ComputedView where
  visible : List Student
  present : List Student
  absent : List Student
  leave : List Student
deriving DecidableEq

/-- The memoized cache `Store._cache`: a validity flag plus the last
computed view. -/
structure CacheState where
  valid : Bool
  view : ComputedView
deriving DecidableEq

/-- The state of the `Store` singleton of src/app.js. `students` combines
`studentMap` and `studentOrder`, which the source only ever writes together
from the same loaded list (`setStudents`); lookups that go through
`studentMap` are modelled with last-write-wins semantics below. -/
structure StoreState where
  students : List Student
  attendance : List (Str × List (Str × CellGroup))
  lockedBatches : List Str
  photoUrls : List (Str × Str)
  currentDate : Str
  currentBatch : Str
  searchQuery : Str
  cache : CacheState
deriving DecidableEq

/-- The empty computed view, the initial `_cache` contents. -/
def emptyView : ComputedView := ⟨[], [], [], []⟩

/-- `Store.lockKey(dateKey, batchKey)`: the composite key
`dateKey + "|" + batchKey`. -/
def lockKey (dateKey batchKey : Str) : Str := dateKey ++ '|' :: batchKey

/-- `Store.studentMap.get(id)`: the `Map` is built by `setStudents` with
one `set` per loaded student, so a duplicated id keeps the last student
record loaded under it. -/
def studentMapGet (students : List Student) (id : Str) : Option Student :=
  students.foldl (fun acc s => if s.id = id then some s else acc) none

/-- The batch map built inside `Store.initDateBatch`: every student of
`studentMap` set to `leave`. Folding `Map.set` over the loaded list yields
ids in first-occurrence order, all mapped to `leave`, exactly as iterating
the id-keyed `studentMap` does. -/
def rosterLeaveMap (students : List Student) : List (Str × Status) :=
  students.foldl (fun m s => insertA s.id Status.leave m) []

/-- The cell group stored at `attendance[dateKey]?.[batchKey]`. -/
def cellGroupAt (st : StoreState) (dateKey batchKey : Str) : Option CellGroup :=
  match lookupA dateKey st.attendance with
  | none => none
  | some bm => lookupA batchKey bm

/-- `Store.getStatus` generalized to explicit keys: `leave` when the cell
group is absent, otherwise the stored entry with `leave` as the default for
a student with no explicit entry (src/app.js lines 90-97; the `Map` and
plain-object branches perform the same lookup). -/
def statusAt (st : StoreState) (dateKey batchKey sid : Str) : Status :=
  match cellGroupAt st dateKey batchKey with
  | none => Status.leave
  | some g => (lookupA sid g.entries).getD Status.leave

/-- `Store.getStatus(studentId)`: reads at the store's current date and
current batch. -/
def getStatus (st : StoreState) (sid : Str) : Status :=
  statusAt st st.currentDate st.currentBatch sid

/-- `Store._invalidateCache()`. -/
def invalidateCache (st : StoreState) : StoreState :=
  { st with cache := { st.cache with valid := false } }

/-- `Store.initDateBatch(dateKey, batchKey)` (src/app.js lines 79-88): if
the cell group does not exist, create it with every currently known roster
student defaulted to `leave`; otherwise do nothing. Does not invalidate the
cache. -/
def initDateBatch (st : StoreState) (dateKey batchKey : Str) : StoreState :=
  match lookupA dateKey st.attendance with
  | none =>
      { st with attendance :=
          (insertA dateKey
            [(batchKey, CellGroup.mk true (rosterLeaveMap st.students))]
            st.attendance) }
  | some dateMap =>
      match lookupA batchKey dateMap with
      | some _ => st
      | none =>
          { st with attendance :=
              (insertA dateKey
                (insertA batchKey
                  (CellGroup.mk true (rosterLeaveMap st.students)) dateMap)
                st.attendance) }

/-- `Store.setStatus(studentId, status)` (src/app.js lines 99-111): creates
an empty `Map` cell group when absent, writes the value, invalidates the
cache. The `saveState` call and the `status:changed` event do not change the
store state; the lock set is never consulted. -/
def setStatus (st : StoreState) (sid : Str) (status : Status) : StoreState :=
  let dateMap := (lookupA st.currentDate st.attendance).getD []
  let grp := (lookupA st.currentBatch dateMap).getD (CellGroup.mk true [])
  let grp' := CellGroup.mk grp.isMap (insertA sid status grp.entries)
  invalidateCache
    { st with attendance :=
        (insertA st.currentDate (insertA st.currentBatch grp' dateMap)
          st.attendance) }

/-- `Store.isDateBatchLocked(dateKey, batchKey)`. -/
def isLockedAt (st : StoreState) (dateKey batchKey : Str) : Bool :=
  memS (lockKey dateKey batchKey) st.lockedBatches

/-- `Store.isLocked()`: membership of the current date/batch composite key
in the lock set. -/
def isLocked (st : StoreState) : Bool :=
  isLockedAt st st.currentDate st.currentBatch

/-- `Store.lockCurrentBatch(photoUrl)` (src/app.js lines 120-126): adds the
current composite key to the lock set (a `Set`, so adding an existing key
changes nothing) and records the photo URL when one is given. -/
def lockCurrentBatch (st : StoreState) (photoUrl : Option Str) : StoreState :=
  let key := lockKey st.currentDate st.currentBatch
  let locked :=
    if memS key st.lockedBatches then st.lockedBatches
    else st.lockedBatches ++ [key]
  let photos :=
    match photoUrl with
    | some url => insertA key url st.photoUrls
    | none => st.photoUrls
  { st with lockedBatches := locked, photoUrls := photos }

/-- The batch id string `batch_01`. -/
def batch01 : Str := ['b', 'a', 't', 'c', 'h', '_', '0', '1']

/-- The batch id string `batch_02`. -/
def batch02 : Str := ['b', 'a', 't', 'c', 'h', '_', '0', '2']

/-- The ids collected by the `forEach` loop of `getBatch1PresentSet`: every
entry whose status is `present`. -/
def presentIds (entries : List (Str × Status)) : List Str :=
  (entries.filter (fun kv => kv.2 = Status.present)).map (fun kv => kv.1)

/-- `Store.getBatch1PresentSet()` (src/app.js lines 133-144): empty unless
the current batch is `batch_02`; otherwise the set of students marked
`present` in the `batch_01` cell group of the current date. -/
def getBatch1PresentSet (st : StoreState) : List Str :=
  if st.currentBatch ≠ batch02 then []
  else
    match cellGroupAt st st.currentDate batch01 with
    | none => []
    | some g => presentIds g.entries

/-- `String.prototype.toLowerCase`, character by character. -/
def toLowerStr (s : Str) : Str := s.map Char.toLower

/-- `String.prototype.trim`: strip leading and trailing whitespace. -/
def trimStr (s : Str) : Str :=
  ((s.dropWhile Char.isWhitespace).reverse.dropWhile Char.isWhitespace).reverse

/-- `hay.startsWith(needle)`, first argument the needle. -/
def startsWithB : Str → Str → Bool
  | [], _ => true
  | _ :: _, [] => false
  | p :: ps, c :: cs => p = c && startsWithB ps cs

/-- `hay.includes(needle)`, first argument the needle. -/
def includesB (needle : Str) : Str → Bool
  | [] => needle.isEmpty
  | c :: rest => startsWithB needle (c :: rest) || includesB needle rest

/-- The search filter of `Store.getComputed`: a student is kept when the
trimmed lower-cased query is empty or is a substring of the lower-cased
name, appNumber or id. -/
def matchesSearch (q : Str) (s : Student) : Bool :=
  q.isEmpty ||
    (includesB q (toLowerStr s.name) || includesB q (toLowerStr s.appNumber) ||
      includesB q (toLowerStr s.id))

/-- The push step of the `getComputed` loop: the student enters `visible`
and exactly one of the three status buckets, chosen by
`this.getStatus(id)`. -/
def pushStudent (st : StoreState) (acc : ComputedView) (s : Student) (id : Str) :
    ComputedView :=
  match getStatus st id with
  | Status.present =>
      { acc with visible := acc.visible ++ [s], present := acc.present ++ [s] }
  | Status.absent =>
      { acc with visible := acc.visible ++ [s], absent := acc.absent ++ [s] }
  | Status.leave =>
      { acc with visible := acc.visible ++ [s], leave := acc.leave ++ [s] }

/-- One iteration of the `getComputed` loop over `studentOrder`
(src/app.js lines 160-178): skip unknown or inactive students, skip batch-1
present students when the batch-1 present set is non-empty, skip search
misses, otherwise push. -/
def viewStep (st : StoreState) (b1p : List Str) (q : Str)
    (acc : ComputedView) (id : Str) : ComputedView :=
  match studentMapGet st.students id with
  | none => acc
  | some s =>
      if s.active = false then acc
      else if 0 < b1p.length ∧ memS id b1p then acc
      else if matchesSearch q s = false then acc
      else pushStudent st acc s id

/-- The from-scratch computation inside `Store.getComputed` (ignoring the
memoization): fold the loop body over `studentOrder`, which `setStudents`
keeps equal to the ids of the loaded list. -/
def computeView (st : StoreState) : ComputedView :=
  (st.students.map (fun s => s.id)).foldl
    (viewStep st (getBatch1PresentSet st) (toLowerStr (trimStr st.searchQuery)))
    emptyView

/-- `Store.getComputed()` (src/app.js lines 149-182): return the cached
view when valid, otherwise recompute, store it in the cache and mark the
cache valid. Returns the view together with the updated store. -/
def getComputed (st : StoreState) : ComputedView × StoreState :=
  if st.cache.valid then (st.cache.view, st)
  else
    let v := computeView st
    (v, { st with cache := CacheState.mk true v })

/-- `Handlers.onPopoverAction` (src/app.js lines 1027-1035), the
lock-guarded mutation path: the status popover writes through
`Store.setStatus` only when `Store.isLocked()` is false (the delegated
card-click handler `onStudentClick` performs the same guard). -/
def onPopoverAction (st : StoreState) (sid : Str) (action : Status) : StoreState :=
  if isLocked st then st else setStatus st sid action

/-- `Handlers.onClearToday` (src/app.js lines 1112-1122): drop the current
date's attendance entry, delete every lock key starting with
`currentDate + "|"`, re-initialize the current date/batch cell group, and
invalidate the cache. The confirmation prompt, `saveState` and rendering do
not change the store state. -/
def onClearToday (st : StoreState) : StoreState :=
  let dateKey := st.currentDate
  let st1 :=
    { st with
      attendance := removeA dateKey st.attendance,
      lockedBatches :=
        st.lockedBatches.filter
          (fun k => !startsWithB (dateKey ++ ['|']) k) }
  invalidateCache (initDateBatch st1 st1.currentDate st1.currentBatch)

/-- A batch definition from CONFIG.BATCHES in src/config.js. -/
structure BatchDef where
  id : Str
  name : Str
  time : Str
deriving DecidableEq

/-- The CONFIG.BATCHES entry for `batch_01` (the `shortName` field is
unused by the save flow). -/
def batchDef01 : BatchDef :=
  ⟨batch01, ['B', 'a', 't', 'c', 'h', ' ', '0', '1'],
    ['5', ':', '3', '0', ' ', 'A', 'M']⟩

/-- The CONFIG.BATCHES entry for `batch_02`. -/
def batchDef02 : BatchDef :=
  ⟨batch02, ['B', 'a', 't', 'c', 'h', ' ', '0', '2'],
    ['6', ':', '0', '0', ' ', 'A', 'M']⟩

/-- CONFIG.BATCHES from src/config.js. -/
def CONFIG_BATCHES : List BatchDef := [batchDef01, batchDef02]

/-- `CONFIG.BATCHES.find(b => b.id === currentBatch)`. -/
def findBatchDef (b : Str) : Option BatchDef :=
  CONFIG_BATCHES.find? (fun bd => decide (bd.id = b))

/-- One attendance record as built by `Handlers.onConfirmSave`
(src/app.js lines 901-910). -/
structure SaveRecord where
  date : Str
  batch : Str
  batchTime : Str
  studentId : Str
  studentName : Str
  appNumber : Str
  status : Status
  time : Str
deriving DecidableEq

/-- The records `onConfirmSave` builds from the visible students of the
computed view, each carrying the student's current status. -/
def attemptedRecords (st : StoreState) (bc : BatchDef) (timeStr : Str) :
    List SaveRecord :=
  (getComputed st).1.visible.map (fun s =>
    { date := st.currentDate, batch := bc.name, batchTime := bc.time,
      studentId := s.id, studentName := s.name, appNumber := s.appNumber,
      status := getStatus st s.id, time := timeStr })

/-- The localStorage key `yoga_records_${date}_${batch}` used by
`StorageManager.saveRecords`. -/
def recordsKey (st : StoreState) : Str :=
  ['y', 'o', 'g', 'a', '_', 'r', 'e', 'c', 'o', 'r', 'd', 's', '_'] ++
    st.currentDate ++ '_' :: st.currentBatch

/-- The store together with the `yoga_records_*` slots of localStorage,
which is all the state the confirmed-save flow touches. -/
structure AppState where
  store : StoreState
  localRecords : List (Str × List SaveRecord)
deriving DecidableEq

/-- `Handlers.onConfirmSave` (src/app.js lines 889-1022) as a function of
the remote outcome. `photoBase64 = none` is the early `Photo is required`
return. `apiConfigured` is whether CONFIG.API_URL is non-empty;
`pushSuccess` is whether the JSONP save resolved with `success: true`
(a script error, a 30s timeout, or an error response all leave `cloudSaved`
false). The batch is locked only when the cloud saved or no API is
configured; `saveRecords` writes the attempted records in both branches.
The `photoUrl` local of the source is never reassigned, so the lock call
always receives `null`. An unknown current batch id would throw in the
source before any state change; that is modelled as the identity. -/
def onConfirmSave (app : AppState) (photoBase64 : Option Str)
    (apiConfigured : Bool) (pushSuccess : Bool) (timeStr : Str) : AppState :=
  match photoBase64 with
  | none => app
  | some _ =>
      match findBatchDef app.store.currentBatch with
      | none => app
      | some bc =>
          let store1 := (getComputed app.store).2
          let records := attemptedRecords app.store bc timeStr
          let cloudSaved := apiConfigured && pushSuccess
          if cloudSaved || !apiConfigured then
            { store := lockCurrentBatch store1 none,
              localRecords :=
                insertA (recordsKey store1) records app.localRecords }
          else
            { store := store1,
              localRecords :=
                insertA (recordsKey store1) records app.localRecords }

/-- Map over the values of an association list, keeping keys. -/
def mapVals {α β : Type} (f : α → β) (l : List (Str × α)) : List (Str × β) :=
  l.map (fun p => (p.1, f p.2))

/-- The serialized shape produced by `StorageManager.saveState`
(src/app.js lines 327-351): cell groups as plain keyed structures, the lock
set as an array, the photo map as a plain keyed structure. -/
structure SavedData where
  attendance : List (Str × List (Str × List (Str × Status)))
  savedBatches : List Str
  photoUrls : List (Str × Str)

/-- `StorageManager.saveState`: `Object.fromEntries` over each `Map` cell
group (a group already held as a plain object is stored as-is — in both
cases the serialized group carries exactly the group's entries),
`Array.from` over the lock set, `Object.fromEntries` over the photo map. -/
def saveState (st : StoreState) : SavedData :=
  { attendance := mapVals (fun bm => mapVals (fun g => g.entries) bm) st.attendance,
    savedBatches := st.lockedBatches,
    photoUrls := st.photoUrls }

/-- `StorageManager.loadState` on data produced by `saveState`
(src/app.js lines 353-380): attendance is kept in the plain-object shape
(`getStatus` handles both), the lock set is rebuilt from the array
(`saveState` always emits the array form, so the legacy nested-object
migration branch is not exercised on a round trip), the photo map is
rebuilt from the entries. -/
def loadState (st : StoreState) (data : SavedData) : StoreState :=
  { st with
    attendance :=
      mapVals (fun bm => mapVals (fun e => CellGroup.mk false e) bm)
        data.attendance,
    lockedBatches := data.savedBatches,
    photoUrls := data.photoUrls }

/-- The photo-proof URL recorded for a (date, batch) pair: the source reads
`Store.photoUrls.get(dateKey + "|" + batchKey)` in the export views. -/
def photoUrlAt (st : StoreState) (dateKey batchKey : Str) : Option Str :=
  lookupA (lockKey dateKey batchKey) st.photoUrls

/-- An operation of the cache-consistency experiment: a `setStatus` write or
a computed-view read, at the store's fixed current date, batch and query. -/
inductive StoreOp where
  | write (sid : Str) (v : Status)
  | read
deriving DecidableEq

/-- Run a sequence of writes and reads against the store, collecting the
view returned by each read (reads go through the memoizing
`getComputed`). -/
def runOps : StoreState → List StoreOp → StoreState × List ComputedView
  | st, [] => (st, [])
  | st, StoreOp.write sid v :: rest => runOps (setStatus st sid v) rest
  | st, StoreOp.read :: rest =>
      let p := getComputed st
      let r := runOps p.2 rest
      (r.1, p.1 :: r.2)

/-- The uncached reference run: every read recomputes the view from scratch
over the ledger state at that point and leaves the store unchanged. -/
def runOpsGold : StoreState → List StoreOp → List ComputedView
  | _, [] => []
  | st, StoreOp.write sid v :: rest => runOpsGold (setStatus st sid v) rest
  | st, StoreOp.read :: rest => computeView st :: runOpsGold st rest

/-- A student appears somewhere in the four output buckets of a view. -/
def inView (s : Student) (v : ComputedView) : Prop :=
  s ∈ v.visible ∨ s ∈ v.present ∨ s ∈ v.absent ∨ s ∈ v.leave

/-- The memoization invariant: whenever the cache is marked valid, it holds
exactly the from-scratch recomputation of the current store state. -/
def CacheOk (st : StoreState) : Prop :=
  st.cache.valid = true → st.cache.view = computeView st

-- Concrete data for counterexamples and witnesses.

/-- A sample date key. -/
def dateMay : Str := ['2', '0', '2', '4', '-', '0', '5', '-', '0', '6']

/-- A second sample date key. -/
def dateJun : Str := ['2', '0', '2', '4', '-', '0', '6', '-', '0', '1']

/-- A sample student id. -/
def idS1 : Str := ['S', '1']

/-- A second sample student id. -/
def idS2 : Str := ['S', '2']

/-- A sample roster student. -/
def studentA : Student :=
  ⟨idS1, ['A', 'l', 'i', 'c', 'e'], ['A', 'P', '1'], true⟩

/-- A second sample roster student. -/
def studentB : Student :=
  ⟨idS2, ['B', 'o', 'b'], ['A', 'P', '2'], true⟩

/-- A store whose current (date, batch) is locked, with no attendance data:
the state used to exercise `setStatus` under a held lock. -/
def stLocked : StoreState :=
  { students := [studentA],
    attendance := [],
    lockedBatches := [lockKey dateMay batch01],
    photoUrls := [],
    currentDate := dateMay,
    currentBatch := batch01,
    searchQuery := [],
    cache := ⟨false, emptyView⟩ }

/-- A store with a two-student roster and no attendance data: the state used
to compare `setStatus` on a missing cell group with
initialize-then-`setStatus`. -/
def stFresh : StoreState :=
  { students := [studentA, studentB],
    attendance := [],
    lockedBatches := [],
    photoUrls := [],
    currentDate := dateMay,
    currentBatch := batch01,
    searchQuery := [],
    cache := ⟨false, emptyView⟩ }

/-- A store viewing `batch_02` while `batch_01` of the same date marks
student S1 present: the state used to exercise the cross-batch exclusion. -/
def stCross : StoreState :=
  { students := [studentA, studentB],
    attendance :=
      [(dateMay,
        [(batch01, CellGroup.mk true [(idS1, Status.present)]),
         (batch02, CellGroup.mk true [(idS1, Status.absent)])])],
    lockedBatches := [],
    photoUrls := [],
    currentDate := dateMay,
    currentBatch := batch02,
    searchQuery := [],
    cache := ⟨false, emptyView⟩ }

/-- A store with data and locks on two dates and a photo URL: the state used
to exercise the clear-today frame conditions. -/
def stTwoDates : StoreState :=
  { students := [studentA, studentB],
    attendance :=
      [(dateMay, [(batch01, CellGroup.mk true [(idS1, Status.present)])]),
       (dateJun, [(batch01, CellGroup.mk true [(idS2, Status.absent)])])],
    lockedBatches := [lockKey dateMay batch01, lockKey dateJun batch01],
    photoUrls := [(lockKey dateMay batch01, ['u', 'r', 'l'])],
    currentDate := dateMay,
    currentBatch := batch01,
    searchQuery := [],
    cache := ⟨false, emptyView⟩ }

/-- The app state used to exercise the confirmed-save flow. -/
def appFresh : AppState :=
  { store := stFresh, localRecords := [] }

/-- A concrete interleaving of writes and reads used to exercise the cache
consistency claim. -/
def opsDemo : List StoreOp :=
  [StoreOp.read, StoreOp.write idS1 Status.present, StoreOp.read,
   StoreOp.write idS1 Status.absent, StoreOp.write idS2 Status.present,
   StoreOp.read, StoreOp.read]

-- Association-list and key-set lemmas.

theorem lookupA_insertA_self {α : Type} (k : Str) (v : α) (l : List (Str × α)) :
    lookupA k (insertA k v l) = some v := by
  induction l with
  | nil => simp [insertA, lookupA]
  | cons p rest ih =>
      obtain ⟨k', v'⟩ := p
      by_cases h : k = k'
      · simp [insertA, h, lookupA]
      · simp [insertA, h, lookupA, ih]

theorem lookupA_insertA_ne {α : Type} {q k : Str} (h : q ≠ k) (v : α)
    (l : List (Str × α)) : lookupA q (insertA k v l) = lookupA q l := by
  induction l with
  | nil => simp [insertA, lookupA, h]
  | cons p rest ih =>
      obtain ⟨k', v'⟩ := p
      by_cases hk : k = k'
      · subst hk
        simp [insertA, lookupA, h]
      · by_cases hq : q = k'
        · simp [insertA, lookupA, hk, hq]
        · simp [insertA, lookupA, hk, hq, ih]

theorem lookupA_removeA_self {α : Type} (k : Str) (l : List (Str × α)) :
    lookupA k (removeA k l) = none := by
  induction l with
  | nil => simp [removeA, lookupA]
  | cons p rest ih =>
      obtain ⟨k', v'⟩ := p
      by_cases h : k' = k
      · simpa [removeA, h] using ih
      · have hne : k ≠ k' := fun hh => h hh.symm
        simpa [removeA, h, lookupA, hne] using ih

theorem lookupA_removeA_ne {α : Type} {q k : Str} (h : q ≠ k)
    (l : List (Str × α)) : lookupA q (removeA k l) = lookupA q l := by
  induction l with
  | nil => simp [removeA, lookupA]
  | cons p rest ih =>
      obtain ⟨k', v'⟩ := p
      by_cases hk : k' = k
      · subst hk
        have : q ≠ k' := h
        simpa [removeA, lookupA, this] using ih
      · by_cases hq : q = k'
        · simp [removeA, lookupA, hk, hq]
        · simpa [removeA, lookupA, hk, hq] using ih

theorem lookupA_mem {α : Type} {k : Str} {v : α} {l : List (Str × α)}
    (h : lookupA k l = some v) : (k, v) ∈ l := by
  induction l with
  | nil => simp [lookupA] at h
  | cons p rest ih =>
      obtain ⟨k', v'⟩ := p
      by_cases hk : k = k'
      · subst hk
        simp [lookupA] at h
        simp [h]
      · simp [lookupA, hk] at h
        exact List.mem_cons_of_mem _ (ih h)

theorem lookupA_mapVals {α β : Type} (f : α → β) (k : Str)
    (l : List (Str × α)) :
    lookupA k (mapVals f l) = (lookupA k l).map f := by
  induction l with
  | nil => simp [mapVals, lookupA]
  | cons p rest ih =>
      obtain ⟨k', v'⟩ := p
      by_cases hk : k = k'
      · simp [mapVals, lookupA, hk]
      · simpa [mapVals, lookupA, hk] using ih

theorem memS_eq_true {x : Str} {l : List Str} : memS x l = true ↔ x ∈ l := by
  induction l with
  | nil => simp [memS]
  | cons k rest ih => simp [memS, ih]

theorem memS_filter_of_true {x : Str} {p : Str → Bool} (hx : p x = true)
    (l : List Str) : memS x (l.filter p) = memS x l := by
  induction l with
  | nil => simp
  | cons a rest ih =>
      by_cases hxa : x = a
      · subst hxa
        simp [List.filter, hx, memS]
      · cases hpa : p a with
        | true => simp [List.filter, hpa, memS, hxa, ih]
        | false => simp [List.filter, hpa, memS, hxa, ih]

theorem memS_filter_of_false {x : Str} {p : Str → Bool} (hx : p x = false)
    (l : List Str) : memS x (l.filter p) = false := by
  induction l with
  | nil => simp [memS]
  | cons a rest ih =>
      by_cases hxa : x = a
      · subst hxa
        simp [List.filter, hx, memS, ih]
      · cases hpa : p a with
        | true => simp [List.filter, hpa, memS, hxa, ih]
        | false => simp [List.filter, hpa, ih]

theorem memS_append_self (x : Str) (l : List Str) :
    memS x (l ++ [x]) = true := by
  induction l with
  | nil => simp [memS]
  | cons a rest ih => simp [memS, ih]

-- String-key lemmas for the composite "date|batch" lock keys.

theorem startsWithB_append (p r : Str) : startsWithB p (p ++ r) = true := by
  induction p with
  | nil => simp [startsWithB]
  | cons c cs ih => simp [startsWithB, ih]

theorem startsWithB_bar_inj {d1 d2 : Str} (h1 : '|' ∉ d1) (h2 : '|' ∉ d2)
    (b : Str) (h : startsWithB (d1 ++ ['|']) (d2 ++ '|' :: b) = true) :
    d1 = d2 := by
  induction d1 generalizing d2 with
  | nil =>
      cases d2 with
      | nil => rfl
      | cons c cs =>
          exfalso
          simp [startsWithB] at h
          exact h2 (by rw [h]; exact List.mem_cons_self _ _)
  | cons c cs ih =>
      cases d2 with
      | nil =>
          exfalso
          simp [startsWithB] at h
          exact h1 (by simp [h.1])
      | cons c' cs' =>
          simp [startsWithB] at h
          have hc : c = c' := h.1
          have : cs = cs' :=
            ih (fun hm => h1 (List.mem_cons_of_mem _ hm))
              (fun hm => h2 (List.mem_cons_of_mem _ hm)) h.2
          simp [hc, this]

-- Lemmas about the all-leave roster map built by `initDateBatch`.

theorem mem_insertA {α : Type} {p : Str × α} {k : Str} {v : α}
    {l : List (Str × α)} (h : p ∈ insertA k v l) : p = (k, v) ∨ p ∈ l := by
  induction l with
  | nil => simpa [insertA] using h
  | cons e rest ih =>
      obtain ⟨k', v'⟩ := e
      by_cases hk : k = k'
      · simp [insertA, hk] at h
        rcases h with h | h
        · exact Or.inl (by simp [h, hk])
        · exact Or.inr (List.mem_cons_of_mem _ h)
      · simp [insertA, hk] at h
        rcases h with h | h
        · exact Or.inr (by simp [h])
        · rcases ih h with h' | h'
          · exact Or.inl h'
          · exact Or.inr (List.mem_cons_of_mem _ h')

theorem insertA_snd_leave {l : List (Str × Status)}
    (hl : ∀ p ∈ l, p.2 = Status.leave) (k : Str) :
    ∀ p ∈ insertA k Status.leave l, p.2 = Status.leave := by
  intro p hp
  rcases mem_insertA hp with h | h
  · rw [h]
  · exact hl p h

theorem foldl_leave_snd (students : List Student) :
    ∀ acc : List (Str × Status), (∀ p ∈ acc, p.2 = Status.leave) →
      ∀ p ∈ students.foldl (fun m s => insertA s.id Status.leave m) acc,
        p.2 = Status.leave := by
  induction students with
  | nil => intro acc hacc p hp; exact hacc p hp
  | cons s rest ih =>
      intro acc hacc p hp
      exact ih _ (insertA_snd_leave hacc s.id) p hp

theorem lookup_leave {l : List (Str × Status)}
    (hl : ∀ p ∈ l, p.2 = Status.leave) (q : Str) :
    (lookupA q l).getD Status.leave = Status.leave := by
  cases h : lookupA q l with
  | none => rfl
  | some v =>
      have hv := hl (q, v) (lookupA_mem h)
      simp at hv
      simp [hv]

theorem rosterLeaveMap_getD (students : List Student) (q : Str) :
    (lookupA q (rosterLeaveMap students)).getD Status.leave = Status.leave :=
  lookup_leave (foldl_leave_snd students [] (by simp)) q

-- Characterizations of `setStatus` and `initDateBatch` through `getStatus`.

theorem getStatus_setStatus (st : StoreState) (sid : Str) (v : Status)
    (q : Str) :
    getStatus (setStatus st sid v) q = if q = sid then v else getStatus st q := by
  unfold setStatus invalidateCache
  by_cases hq : q = sid
  · subst hq
    simp [getStatus, statusAt, cellGroupAt, lookupA_insertA_self]
  · simp only [getStatus, statusAt, cellGroupAt, if_neg hq]
    cases hd : lookupA st.currentDate st.attendance with
    | none =>
        simp [hd, lookupA_insertA_self, lookupA_insertA_ne hq, lookupA, hq]
    | some dm =>
        cases hb : lookupA st.currentBatch dm with
        | none =>
            simp [hd, hb, lookupA_insertA_self, lookupA_insertA_ne hq,
              lookupA, hq]
        | some g =>
            simp [hd, hb, lookupA_insertA_self, lookupA_insertA_ne hq, hq]

theorem getStatus_initCurrent (st : StoreState) (q : Str) :
    getStatus (initDateBatch st st.currentDate st.currentBatch) q =
      getStatus st q := by
  unfold initDateBatch
  cases hd : lookupA st.currentDate st.attendance with
  | none =>
      simp [getStatus, statusAt, cellGroupAt, hd, lookupA_insertA_self,
        lookupA, rosterLeaveMap_getD]
  | some dm =>
      cases hb : lookupA st.currentBatch dm with
      | some g => simp [getStatus, statusAt, cellGroupAt, hd, hb]
      | none =>
          simp [getStatus, statusAt, cellGroupAt, hd, hb,
            lookupA_insertA_self, rosterLeaveMap_getD]

-- Claim theorems.

/-- C2: the final-status merge satisfies the precedence rule with
missing-data normalization: the four concrete equalities from the spec hold,
and on every pair of inputs `getFinalStatus` agrees with the spec's
normalize-then-precedence rule. -/
theorem C2_merge_precedence :
    getFinalStatus MStatus.present MStatus.absent = MStatus.present ∧
    getFinalStatus MStatus.absent MStatus.leave = MStatus.absent ∧
    getFinalStatus MStatus.leave MStatus.leave = MStatus.leave ∧
    getFinalStatus MStatus.missing MStatus.missing = MStatus.leave ∧
    ∀ b1 b2 : MStatus, getFinalStatus b1 b2 = specMergeFinal b1 b2 := by
  refine ⟨rfl, rfl, rfl, rfl, ?_⟩
  intro b1 b2
  cases b1 <;> cases b2 <;> rfl

/-- C1 counterexample: with the current (date, batch) locked, a direct call
to the store's `setStatus` still changes the student's status — the store
itself never consults the lock set. -/
theorem C1_counterexample :
    isLocked stLocked = true ∧
      getStatus (setStatus stLocked idS1 Status.present) idS1 ≠
        getStatus stLocked idS1 := by
  decide

/-- C1 amended: the lock is enforced at the call sites, not in the store —
the UI mutation paths (`onPopoverAction`, and identically `onStudentClick`)
check `isLocked()` first, so through them a held lock leaves the entire
store state unchanged. -/
theorem C1_locked_guard_noop (st : StoreState) (h : isLocked st = true)
    (sid : Str) (a : Status) : onPopoverAction st sid a = st := by
  unfold onPopoverAction
  simp [h]

/-- C1 witness: the guarded mutation path is a no-op on a concrete locked
store. -/
theorem C1_locked_guard_noop_witness :
    isLocked stLocked = true ∧
      onPopoverAction stLocked idS1 Status.present = stLocked :=
  ⟨by decide, C1_locked_guard_noop stLocked (by decide) idS1 Status.present⟩

/-- C4: `getStatus` is total and defaults to `leave` — it returns `leave`
whenever the (currentDate, currentBatch) cell group does not exist, and
whenever the group exists but holds no explicit entry for the student. -/
theorem C4_default_to_leave (st : StoreState) (sid : Str)
    (h : cellGroupAt st st.currentDate st.currentBatch = none ∨
         ∃ g, cellGroupAt st st.currentDate st.currentBatch = some g ∧
              lookupA sid g.entries = none) :
    getStatus st sid = Status.leave := by
  unfold getStatus statusAt
  rcases h with h | ⟨g, hg, hl⟩
  · rw [h]
  · rw [hg]
    simp [hl]

/-- C4 witness: on a store with no attendance data, an id that is not even
in the roster reads as `leave`. -/
theorem C4_default_to_leave_witness :
    cellGroupAt stFresh stFresh.currentDate stFresh.currentBatch = none ∧
      getStatus stFresh ['g', 'h'] = Status.leave :=
  ⟨by decide, C4_default_to_leave stFresh ['g', 'h'] (Or.inl (by decide))⟩

/-- C5 counterexample: `setStatus` on a missing cell group creates an empty
`Map`, not a roster-initialized one — on a two-student roster the resulting
store differs from initialize-then-`setStatus` (the second student has no
explicit `leave` entry). -/
theorem C5_counterexample :
    setStatus stFresh idS1 Status.present ≠
      setStatus (initDateBatch stFresh stFresh.currentDate stFresh.currentBatch)
        idS1 Status.present := by
  decide

/-- C5 amended: `setStatus` on a missing cell group creates an empty cell
group (roster students receive no explicit `leave` entries), so the
resulting ledger state is not equal to the ensure-initialized state; the two
states are nevertheless observationally equivalent through `getStatus` for
every student. -/
theorem C5_setStatus_missing_group_observational (st : StoreState)
    (sid : Str) (v : Status) (q : Str) :
    getStatus (setStatus st sid v) q =
      getStatus
        (setStatus (initDateBatch st st.currentDate st.currentBatch) sid v)
        q := by
  rw [getStatus_setStatus, getStatus_setStatus, getStatus_initCurrent]

-- Lemmas about the computed-view loop.

theorem studentMapGet_aux (students : List Student) (id : Str) :
    ∀ acc : Option Student, (∀ s, acc = some s → s.id = id) →
      ∀ s,
        students.foldl (fun acc' s' => if s'.id = id then some s' else acc')
            acc = some s →
        s.id = id := by
  induction students with
  | nil => intro acc hacc s h; exact hacc s h
  | cons t rest ih =>
      intro acc hacc s h
      refine ih _ ?_ s h
      intro s' h'
      dsimp only at h'
      by_cases ht : t.id = id
      · rw [if_pos ht] at h'
        cases h'
        exact ht
      · rw [if_neg ht] at h'
        exact hacc s' h'

theorem studentMapGet_id {students : List Student} {id : Str} {s : Student}
    (h : studentMapGet students id = some s) : s.id = id := by
  unfold studentMapGet at h
  exact studentMapGet_aux students id none (by simp) s h

theorem mem_presentIds {x : Str} {entries : List (Str × Status)}
    (h : lookupA x entries = some Status.present) : x ∈ presentIds entries := by
  have hm := lookupA_mem h
  unfold presentIds
  exact List.mem_map.mpr
    ⟨(x, Status.present), List.mem_filter.mpr ⟨hm, by simp⟩, rfl⟩

theorem inView_pushStudent {st : StoreState} {acc : ComputedView}
    {s0 : Student} {id : Str} {s : Student}
    (h : inView s (pushStudent st acc s0 id)) : s = s0 ∨ inView s acc := by
  unfold pushStudent at h
  cases hst : getStatus st id <;> rw [hst] at h <;>
    · simp only [inView] at h ⊢
      simp [List.mem_append] at h
      tauto

theorem viewStep_excl {st : StoreState} {b1p : List Str} {q x : Str}
    (hx : memS x b1p = true) :
    ∀ (ids : List Str) (acc : ComputedView),
      (∀ s : Student, inView s acc → s.id ≠ x) →
      ∀ s : Student, inView s (ids.foldl (viewStep st b1p q) acc) →
        s.id ≠ x := by
  intro ids
  induction ids with
  | nil => intro acc hacc s h; exact hacc s h
  | cons id rest ih =>
      intro acc hacc s h
      refine ih _ ?_ s h
      intro s' h'
      unfold viewStep at h'
      cases hg : studentMapGet st.students id with
      | none => rw [hg] at h'; exact hacc s' h'
      | some s0 =>
          rw [hg] at h'
          dsimp only at h'
          by_cases ha : s0.active = false
          · rw [if_pos ha] at h'; exact hacc s' h'
          · rw [if_neg ha] at h'
            by_cases hcb : 0 < b1p.length ∧ memS id b1p = true
            · rw [if_pos hcb] at h'; exact hacc s' h'
            · rw [if_neg hcb] at h'
              by_cases hq : matchesSearch q s0 = false
              · rw [if_pos hq] at h'; exact hacc s' h'
              · rw [if_neg hq] at h'
                rcases inView_pushStudent h' with h0 | h0
                · subst h0
                  rw [studentMapGet_id hg]
                  intro hex
                  apply hcb
                  refine ⟨?_, ?_⟩
                  · exact List.length_pos.mpr
                      (List.ne_nil_of_mem (memS_eq_true.mp hx))
                  · rw [hex]; exact hx
                · exact hacc s' h0

/-- C3: cross-batch exclusion — when the current batch is `batch_02` and a
student is marked `present` in the `batch_01` cell group of the current
date, no student with that id appears in any of the four buckets of the
computed view, whatever the search query and whatever the student's
`batch_02` status. -/
theorem C3_cross_batch_exclusion (st : StoreState) (x : Str)
    (hb : st.currentBatch = batch02)
    (hp : statusAt st st.currentDate batch01 x = Status.present) :
    ∀ s : Student, inView s (computeView st) → s.id ≠ x := by
  have hgrp : ∃ g, cellGroupAt st st.currentDate batch01 = some g ∧
      lookupA x g.entries = some Status.present := by
    unfold statusAt at hp
    cases hg : cellGroupAt st st.currentDate batch01 with
    | none => rw [hg] at hp; simp at hp
    | some g =>
        rw [hg] at hp
        dsimp only at hp
        cases hl : lookupA x g.entries with
        | none => rw [hl] at hp; simp at hp
        | some v =>
            rw [hl] at hp
            simp at hp
            exact ⟨g, rfl, by rw [hl, hp]⟩
  obtain ⟨g, hg, hl⟩ := hgrp
  have hxset : x ∈ getBatch1PresentSet st := by
    unfold getBatch1PresentSet
    rw [if_neg (by simp [hb]), hg]
    exact mem_presentIds hl
  have hmem : memS x (getBatch1PresentSet st) = true := memS_eq_true.mpr hxset
  unfold computeView
  intro s h
  exact viewStep_excl hmem _ emptyView
    (by intro s' h'; simp [inView, emptyView] at h') s h

/-- C3 witness: on a concrete store viewing `batch_02` with student S1
marked present in `batch_01` of the same date, S1 is excluded from every
bucket of the computed view. -/
theorem C3_cross_batch_exclusion_witness :
    (stCross.currentBatch = batch02 ∧
      statusAt stCross stCross.currentDate batch01 idS1 = Status.present) ∧
      ∀ s : Student, inView s (computeView stCross) → s.id ≠ idS1 :=
  ⟨⟨by decide, by decide⟩,
    C3_cross_batch_exclusion stCross idS1 (by decide) (by decide)⟩

-- Cache-irrelevance lemmas: the computed view and the ledger effect of
-- `setStatus` never read the cache field.

theorem computeView_cache (st : StoreState) (c : CacheState) :
    computeView { st with cache := c } = computeView st := rfl

theorem setStatus_cache (st : StoreState) (c : CacheState) (sid : Str)
    (v : Status) :
    setStatus { st with cache := c } sid v =
      { setStatus st sid v with cache := CacheState.mk false c.view } := rfl

theorem runOpsGold_cache (ops : List StoreOp) :
    ∀ (st : StoreState) (c : CacheState),
      runOpsGold { st with cache := c } ops = runOpsGold st ops := by
  induction ops with
  | nil => intro st c; rfl
  | cons op rest ih =>
      intro st c
      cases op with
      | read =>
          simp only [runOpsGold]
          rw [computeView_cache, ih]
      | write sid v =>
          simp only [runOpsGold]
          rw [setStatus_cache, ih]

theorem runOps_outputs (ops : List StoreOp) :
    ∀ st : StoreState, CacheOk st → (runOps st ops).2 = runOpsGold st ops := by
  induction ops with
  | nil => intro st _; rfl
  | cons op rest ih =>
      intro st h
      cases op with
      | write sid v =>
          simp only [runOps, runOpsGold]
          exact ih _ (fun hv =>
            absurd hv (by simp [setStatus, invalidateCache]))
      | read =>
          simp only [runOps, runOpsGold]
          cases hv : st.cache.valid with
          | true =>
              have hg : getComputed st = (st.cache.view, st) := by
                simp [getComputed, hv]
              rw [hg, h hv, ih st h]
          | false =>
              have hg : getComputed st =
                  (computeView st,
                    { st with cache := CacheState.mk true (computeView st) }) := by
                simp [getComputed, hv]
              rw [hg]
              have hok :
                  CacheOk
                    { st with cache := CacheState.mk true (computeView st) } :=
                fun _ => rfl
              rw [ih _ hok, runOpsGold_cache]

/-- C6: cache consistency — starting from an invalidated cache, any
interleaving of `setStatus` writes and memoized `getComputed` reads (at the
store's fixed roster, date, batch and query) returns, at every read, exactly
the from-scratch recomputation of the view over the ledger state at that
point. -/
theorem C6_cache_consistency (st : StoreState) (h : st.cache.valid = false)
    (ops : List StoreOp) : (runOps st ops).2 = runOpsGold st ops :=
  runOps_outputs ops st
    (fun hv => absurd (h.symm.trans hv) Bool.false_ne_true)

/-- C6 witness: the memoized run and the uncached run agree on a concrete
store and a concrete interleaving of writes and reads. -/
theorem C6_cache_consistency_witness :
    stFresh.cache.valid = false ∧
      (runOps stFresh opsDemo).2 = runOpsGold stFresh opsDemo :=
  ⟨rfl, C6_cache_consistency stFresh rfl opsDemo⟩

-- The clear-today frame conditions.

/-- C7: `onClearToday` removes every cell group and every lock of the
current date (afterwards every batch and student of that date reads `leave`
and no batch of that date is locked), and leaves every other date's
statuses and lock memberships exactly as before; the date keys are assumed
free of the `|` separator, as every date key produced by the date picker
is. -/
theorem C7_clear_frame (st : StoreState) (hbar : '|' ∉ st.currentDate) :
    (∀ b sid : Str,
        statusAt (onClearToday st) st.currentDate b sid = Status.leave) ∧
      (∀ b : Str, isLockedAt (onClearToday st) st.currentDate b = false) ∧
      (∀ d b sid : Str, d ≠ st.currentDate →
        statusAt (onClearToday st) d b sid = statusAt st d b sid) ∧
      (∀ d b : Str, d ≠ st.currentDate → '|' ∉ d →
        isLockedAt (onClearToday st) d b = isLockedAt st d b) := by
  have hrm :
      lookupA st.currentDate (removeA st.currentDate st.attendance) = none :=
    lookupA_removeA_self _ _
  have hatt :
      (onClearToday st).attendance =
        insertA st.currentDate
          [(st.currentBatch, CellGroup.mk true (rosterLeaveMap st.students))]
          (removeA st.currentDate st.attendance) := by
    simp only [onClearToday, initDateBatch, invalidateCache, hrm]
  have hlocks :
      (onClearToday st).lockedBatches =
        st.lockedBatches.filter
          (fun k => !startsWithB (st.currentDate ++ ['|']) k) := by
    simp only [onClearToday, initDateBatch, invalidateCache, hrm]
  refine ⟨?_, ?_, ?_, ?_⟩
  · intro b sid
    unfold statusAt cellGroupAt
    rw [hatt, lookupA_insertA_self]
    by_cases hb : b = st.currentBatch
    · subst hb
      simp [lookupA, rosterLeaveMap_getD]
    · simp [lookupA, hb]
  · intro b
    unfold isLockedAt
    rw [hlocks]
    apply memS_filter_of_false
    have hsw :
        startsWithB (st.currentDate ++ ['|']) (lockKey st.currentDate b) =
          true := by
      unfold lockKey
      have hsplit : st.currentDate ++ '|' :: b =
          (st.currentDate ++ ['|']) ++ b := by simp
      rw [hsplit]
      exact startsWithB_append _ _
    simp [hsw]
  · intro d b sid hd
    unfold statusAt cellGroupAt
    rw [hatt, lookupA_insertA_ne hd, lookupA_removeA_ne hd]
  · intro d b hd hbard
    unfold isLockedAt
    rw [hlocks]
    apply memS_filter_of_true
    have hns :
        startsWithB (st.currentDate ++ ['|']) (lockKey d b) = false := by
      cases hsw : startsWithB (st.currentDate ++ ['|']) (lockKey d b) with
      | false => rfl
      | true =>
          exfalso
          unfold lockKey at hsw
          exact hd (startsWithB_bar_inj hbar hbard b hsw).symm
    simp [hns]

/-- C7 witness: the frame conditions hold on a concrete store with data and
locks on two dates. -/
theorem C7_clear_frame_witness :
    '|' ∉ stTwoDates.currentDate ∧
      ((∀ b sid : Str,
          statusAt (onClearToday stTwoDates) stTwoDates.currentDate b sid =
            Status.leave) ∧
        (∀ b : Str,
          isLockedAt (onClearToday stTwoDates) stTwoDates.currentDate b =
            false) ∧
        (∀ d b sid : Str, d ≠ stTwoDates.currentDate →
          statusAt (onClearToday stTwoDates) d b sid =
            statusAt stTwoDates d b sid) ∧
        (∀ d b : Str, d ≠ stTwoDates.currentDate → '|' ∉ d →
          isLockedAt (onClearToday stTwoDates) d b =
            isLockedAt stTwoDates d b)) :=
  ⟨by decide, C7_clear_frame stTwoDates (by decide)⟩

-- The confirmed-save flow.

theorem getComputed_store (st : StoreState) :
    ∃ c, (getComputed st).2 = { st with cache := c } := by
  unfold getComputed
  cases hv : st.cache.valid with
  | true => exact ⟨st.cache, by simp [hv]⟩
  | false => exact ⟨CacheState.mk true (computeView st), by simp [hv]⟩

theorem isLocked_lockCurrentBatch (st : StoreState) (u : Option Str) :
    isLocked (lockCurrentBatch st u) = true := by
  unfold isLocked isLockedAt lockCurrentBatch
  cases hm : memS (lockKey st.currentDate st.currentBatch) st.lockedBatches with
  | true => cases u <;> simp [hm]
  | false => cases u <;> simp [hm, memS_append_self]

/-- C8: a failed or timed-out remote save never locks — with an API
configured and the push unsuccessful, the flow leaves the lock set and all
attendance statuses untouched (so the still-unlocked pair stays unlocked),
while the attempted records are written to the local `yoga_records_*` slot;
and across all outcomes the pair ends up locked exactly when the push
succeeded or no API is configured. -/
theorem C8_push_failure_no_lock (app : AppState) (photo timeStr : Str)
    (bc : BatchDef) (hb : findBatchDef app.store.currentBatch = some bc)
    (hnl : isLocked app.store = false) :
    isLocked (onConfirmSave app (some photo) true false timeStr).store = false ∧
      (onConfirmSave app (some photo) true false timeStr).store.attendance =
        app.store.attendance ∧
      (onConfirmSave app (some photo) true false timeStr).store.lockedBatches =
        app.store.lockedBatches ∧
      lookupA (recordsKey app.store)
          (onConfirmSave app (some photo) true false timeStr).localRecords =
        some (attemptedRecords app.store bc timeStr) ∧
      ∀ apiC pushS : Bool,
        isLocked (onConfirmSave app (some photo) apiC pushS timeStr).store =
          (!apiC || pushS) := by
  obtain ⟨c, hc⟩ := getComputed_store app.store
  have hform : onConfirmSave app (some photo) true false timeStr =
      { store := (getComputed app.store).2,
        localRecords :=
          insertA (recordsKey (getComputed app.store).2)
            (attemptedRecords app.store bc timeStr) app.localRecords } := by
    simp [onConfirmSave, hb]
  have hlockform : ∀ apiC pushS : Bool, ((apiC && pushS) || !apiC) = true →
      onConfirmSave app (some photo) apiC pushS timeStr =
        { store := lockCurrentBatch (getComputed app.store).2 none,
          localRecords :=
            insertA (recordsKey (getComputed app.store).2)
              (attemptedRecords app.store bc timeStr) app.localRecords } := by
    intro apiC pushS hcond
    simp [onConfirmSave, hb, hcond]
  have hkey : recordsKey (getComputed app.store).2 = recordsKey app.store := by
    rw [hc]; rfl
  have hlock1 : isLocked (getComputed app.store).2 = isLocked app.store := by
    rw [hc]; rfl
  refine ⟨?_, ?_, ?_, ?_, ?_⟩
  · rw [hform]
    exact hlock1.trans hnl
  · rw [hform, hc]
  · rw [hform, hc]
  · rw [hform]
    dsimp only
    rw [hkey, lookupA_insertA_self]
  · intro apiC pushS
    cases apiC with
    | false =>
        rw [hlockform false pushS (by simp)]
        simp [isLocked_lockCurrentBatch]
    | true =>
        cases pushS with
        | true =>
            rw [hlockform true true (by simp)]
            simp [isLocked_lockCurrentBatch]
        | false =>
            rw [hform]
            dsimp only
            rw [hlock1, hnl]
            rfl

/-- C8 witness: on a concrete unlocked store, a failed push leaves the
store unlocked and untouched while the records are still written locally. -/
theorem C8_push_failure_no_lock_witness :
    (findBatchDef appFresh.store.currentBatch = some batchDef01 ∧
      isLocked appFresh.store = false) ∧
      isLocked
          (onConfirmSave appFresh (some ['p']) true false ['t']).store =
        false := by
  refine ⟨⟨by decide, by decide⟩, ?_⟩
  exact (C8_push_failure_no_lock appFresh ['p'] ['t'] batchDef01 (by decide)
    (by decide)).1

-- Persistence round trip.

/-- C9: serializing through `saveState` and restoring through `loadState`
is observationally the identity — every (date, batch, student) status, every
lock membership and every photo URL read the same, even though cell groups
come back in the plain-object shape instead of as `Map`s. -/
theorem C9_persistence_roundtrip (st : StoreState) (d b sid : Str) :
    statusAt (loadState st (saveState st)) d b sid = statusAt st d b sid ∧
      isLockedAt (loadState st (saveState st)) d b = isLockedAt st d b ∧
      photoUrlAt (loadState st (saveState st)) d b = photoUrlAt st d b := by
  refine ⟨?_, rfl, rfl⟩
  unfold statusAt cellGroupAt loadState saveState
  simp only [lookupA_mapVals]
  cases hd : lookupA d st.attendance with
  | none => simp
  | some bm =>
      simp only [Option.map_some', lookupA_mapVals]
      cases hb : lookupA b bm with
      | none => simp
      | some g => simp

-- Clearing a date leaves the photo-proof map untouched.

/-- C10: `onClearToday` never touches the photo-URL map — for every
(date, batch) pair, including the cleared date itself, the recorded photo
URL is unchanged. -/
theorem C10_clear_keeps_photos (st : StoreState) (d b : Str) :
    photoUrlAt (onClearToday st) d b = photoUrlAt st d b := by
  have hrm :
      lookupA st.currentDate (removeA st.currentDate st.attendance) = none :=
    lookupA_removeA_self _ _
  have hp : (onClearToday st).photoUrls = st.photoUrls := by
    simp only [onClearToday, initDateBatch, invalidateCache, hrm]
  unfold photoUrlAt
  rw [hp]

end Yoga
